import Mathlib

/-!
Verification of the persistent vector index and chunking subsystem of the
rag_chatbot repository: a shallow embedding of
`backend/app/services/vector_store.py` (class FAISSVectorStore) and
`backend/app/services/llm_chunker.py` (class LLMChunker), together with
theorems settling the specified behavioural claims.

Modelling conventions:
* Machine floats are modelled by `ℚ`; vector contents only matter through
  their lengths (dimensions) in the properties below, and the FAISS HNSW
  graph traversal is approximate by design, so the raw hit list an ANN query
  returns is a parameter of `search` rather than computed.
* A Python exception that aborts an operation before any state mutation is
  modelled by `Except`: the `.error` outcome carries no state, and `runAdd`
  expresses that the caller's in-memory store is unchanged on failure.
* Timestamps (`added_at`, `upload_date`, file mtimes) and on-disk
  persistence are elided: no claim below depends on them, and `_save` /
  `_reload_if_changed` only move state between memory and disk.
-/

namespace RagChatbot

/-- A chunk record produced by `LLMChunker.chunk_document`
(llm_chunker.py lines 77-86) and consumed by `add_documents`. -/
structure Chunk where
  content : String
  chunk_index : Nat
  filename : String
  total_chunks : Nat
deriving DecidableEq

/-- Chunk metadata appended by `add_documents` (vector_store.py lines
158-167); the `added_at` wall-clock timestamp is elided. -/
structure ChunkMeta where
  document_id : String
  filename : String
  content : String
  chunk_index : Nat
  total_chunks : Nat
deriving DecidableEq

/-- Document registry entry (vector_store.py lines 170-174); the
`upload_date` wall-clock timestamp is elided. -/
structure DocRecord where
  filename : String
  chunk_count : Nat
deriving DecidableEq

/-- In-memory state of `FAISSVectorStore`.  `index = some (d, vecs)` models a
live `faiss.IndexHNSWFlat` of dimension `d` holding the rows `vecs` in
insertion order; `index = none` models `self.index is None` (no index has
been created yet).  `efSearch` is the HNSW query-breadth parameter. -/
structure VectorStore where
  index : Option (Nat × List (List ℚ))
  dimension : Option Nat
  metadata : List ChunkMeta
  document_info : List (String × DocRecord)
  efSearch : Nat

/-- The store constructed by `__init__` when no artifacts exist on disk. -/
def emptyStore : VectorStore :=
  { index := none, dimension := none, metadata := [], document_info := [],
    efSearch := 0 }

/-- `self.index.ntotal if self.index else 0`. -/
def VectorStore.ntotal (s : VectorStore) : Nat :=
  match s.index with
  | none => 0
  | some (_, vecs) => vecs.length

/-- Python dict assignment `self.document_info[document_id] = rec`
(vector_store.py line 170): replace the entry in place when the key is
present, append otherwise. -/
def setEntry (info : List (String × DocRecord)) (id : String)
    (rec : DocRecord) : List (String × DocRecord) :=
  if info.any (fun p => p.1 = id) then
    info.map (fun p => if p.1 = id then (id, rec) else p)
  else info ++ [(id, rec)]

/-- Sum of `chunk_count` over all registry entries. -/
def sumChunkCounts (info : List (String × DocRecord)) : Nat :=
  (info.map (fun p => p.2.chunk_count)).sum

/-- Errors raised by `add_documents` before any state mutation:
`valueError` is the `ValueError` for a non-2-D `np.array(embeddings)`
(empty or ragged row list, line 137), and `dimensionMismatch` is the
dimension assertion of `faiss.Index.add` (line 155) when the incoming rows'
width differs from the established index dimension. -/
inductive AddError where
  | valueError
  | dimensionMismatch
deriving DecidableEq

/-- The chunk-metadata record built for one chunk dict (lines 159-166). -/
def chunkMetaOf (document_id filename : String) (c : Chunk) : ChunkMeta :=
  { document_id := document_id, filename := filename, content := c.content,
    chunk_index := c.chunk_index, total_chunks := c.total_chunks }

/-- `FAISSVectorStore.add_documents` (vector_store.py lines 118-177).
`faiss.normalize_L2` rescales rows in place and preserves the array's
shape; the normalised values themselves play no role in any property
below, so the rows are stored as given.  On the first insertion the index
is created with the rows' width as its dimension and `efSearch = 128`
(lines 142-152); afterwards `faiss.Index.add` requires the incoming width
to equal the index dimension.  Persistence (`_save`) is elided. -/
def addDocuments (s : VectorStore) (chunks : List Chunk)
    (embeddings : List (List ℚ)) (document_id filename : String) :
    Except AddError VectorStore :=
  match embeddings with
  | [] => .error .valueError
  | first :: rest =>
    if (first :: rest).all (fun e => e.length = first.length) then
      match s.index with
      | none =>
        .ok { index := some (first.length, first :: rest),
              dimension := some first.length,
              metadata := s.metadata ++
                chunks.map (chunkMetaOf document_id filename),
              document_info := setEntry s.document_info document_id
                { filename := filename, chunk_count := chunks.length },
              efSearch := 128 }
      | some (d, vecs) =>
        if first.length = d then
          .ok { index := some (d, vecs ++ (first :: rest)),
                dimension := s.dimension,
                metadata := s.metadata ++
                  chunks.map (chunkMetaOf document_id filename),
                document_info := setEntry s.document_info document_id
                  { filename := filename, chunk_count := chunks.length },
                efSearch := s.efSearch }
        else .error .dimensionMismatch
    else .error .valueError

/-- Effect of a call to `add_documents` on the caller's in-memory store: a
raised error leaves it unchanged, since both failure points (the
`np.array` validation and the `faiss.Index.add` assertion) occur before
the first mutation of `self`. -/
def runAdd (s : VectorStore) (chunks : List Chunk)
    (embeddings : List (List ℚ)) (document_id filename : String) :
    VectorStore :=
  match addDocuments s chunks embeddings document_id filename with
  | .ok s' => s'
  | .error _ => s

/-- Arguments of one `add_documents` call. -/
structure AddCall where
  chunks : List Chunk
  embeddings : List (List ℚ)
  document_id : String
  filename : String
deriving DecidableEq

/-- A sequence of `add_documents` calls on one store instance. -/
def runAdds (s : VectorStore) (calls : List AddCall) : VectorStore :=
  calls.foldl
    (fun s c => runAdd s c.chunks c.embeddings c.document_id c.filename) s

/-- Clamp of the cosine value to `[-1, 1]` (vector_store.py lines 227-230). -/
def clampCos (c : ℚ) : ℚ :=
  if c > 1 then 1 else if c < -1 then -1 else c

/-- The user-facing similarity score computed from one squared-L2 distance
(vector_store.py lines 224-231): `cos = 1 - dist/2`, clamped to `[-1, 1]`,
then mapped to `[0, 1]` as `(cos + 1) / 2`. -/
def similarity01 (dist : ℚ) : ℚ :=
  (clampCos (1 - dist / 2) + 1) / 2

/-- One search result: a chunk-metadata record plus its score. -/
structure SearchResult where
  meta : ChunkMeta
  similarity_score : ℚ
deriving DecidableEq

/-- The result-preparation loop of `search` (vector_store.py lines 218-238).
`raw` is one row of FAISS output: `(distance, index)` pairs, where the
index is a signed machine integer (`-1` marks an invalid slot, so the
`idx is None` guard on line 220 never fires for numpy integers).  A pair
is kept only when `0 <= idx < len(metadata)` (line 223); kept pairs yield
the metadata record at that position together with its score. -/
def processHits (metadata : List ChunkMeta) (raw : List (ℚ × Int)) :
    List SearchResult :=
  raw.filterMap (fun hit =>
    if h : 0 ≤ hit.2 ∧ hit.2 < (metadata.length : Int) then
      some { meta := metadata.get ⟨hit.2.toNat, by omega⟩,
             similarity_score := similarity01 hit.1 }
    else none)

/-- The per-query `efSearch` tuning (vector_store.py lines 203-212):
`target_ef = max(64, min(512, top_k * 32))`, applied only when it exceeds
the current value, so the parameter never decreases. -/
def updateEfSearch (current top_k : Nat) : Nat :=
  let target := max 64 (min 512 (top_k * 32))
  if target > current then target else current

/-- `FAISSVectorStore.search` (vector_store.py lines 179-238).  Returns the
store (with its `efSearch` tuned) and the result list.  The FAISS call on
line 215 runs with `k = min top_k ntotal`; since the HNSW traversal is
approximate, its output row `raw` (of length `k`) is taken as a parameter
rather than computed.  An absent index or an empty index short-circuits to
the empty result list (line 196). -/
def search (s : VectorStore) (top_k : Nat) (raw : List (ℚ × Int)) :
    VectorStore × List SearchResult :=
  match s.index with
  | none => (s, [])
  | some (_, vecs) =>
    if vecs.length = 0 then (s, [])
    else
      ({ s with efSearch := updateEfSearch s.efSearch top_k },
       processHits s.metadata raw)

/-- Window start offsets produced by Python `range(0, n, step)` for
`step ≥ 1` (llm_chunker.py line 200): all multiples of `step` below `n`. -/
def windowStarts (n step : Nat) : List Nat :=
  (List.range ((n + step - 1) / step)).map (fun i => i * step)

/-- `LLMChunker._naive_split` (llm_chunker.py lines 188-208) at the token
level: window length `max(chunk_size, 1)`, step `max(chunk_size -
chunk_overlap, 1)`, one window of tokens per start offset; empty windows
are dropped (line 203; in fact every start offset lies below the token
count, so no window is empty).  Decoding each window back to text and
trimming it (lines 205-207) is tokenizer-specific and outside the model:
the value here is the list of token windows. -/
def naiveSplitWindows (tokens : List α) (chunk_size chunk_overlap : Nat) :
    List (List α) :=
  if tokens.isEmpty then []
  else
    let window := max chunk_size 1
    let step := max (chunk_size - chunk_overlap) 1
    ((windowStarts tokens.length step).map
      (fun start => (tokens.drop start).take window)).filter
      (fun w => !w.isEmpty)

/-- Token count of an accumulated sentence list: the code's `current_tokens`
bookkeeping sums per-sentence token counts (llm_chunker.py lines 242, 245),
and the budget checks compare exactly this sum against `chunk_size`. -/
def chunkSum (tc : String → Nat) (chunk : List String) : Nat :=
  (chunk.map tc).sum

/-- The sentence-overlap seed taken from a just-emitted chunk
(llm_chunker.py lines 240-241): the trailing `max(2, len // 4)` sentences,
Python `current_sentences[-k:]`. -/
def seedOf (chunk : List String) : List String :=
  chunk.drop (chunk.length - max 2 (chunk.length / 4))

/-- One iteration of the sentence loop of `_sentence_aware_split`
(llm_chunker.py lines 228-245) on the state
`(chunks, current_sentences, current_tokens)`.  A zero-token sentence is
skipped (line 231).  On overflow with a nonempty accumulation the chunk is
emitted (the joined text of nonempty stripped sentences is nonempty, so
the `strip` guard on line 236 always passes), the accumulation is reseeded
with the overlap sentences and its token count recomputed; in either case
the incoming sentence is then appended and its count added. -/
def sentenceStep (chunk_size : Nat) (tc : String → Nat)
    (st : List (List String) × List String × Nat) (sentence : String) :
    List (List String) × List String × Nat :=
  let stoks := tc sentence
  if stoks = 0 then st
  else
    let (chunks, cur, curTok) :=
      if st.2.2 + stoks > chunk_size ∧ st.2.1 ≠ [] then
        let seed := seedOf st.2.1
        (st.1 ++ [st.2.1], seed, chunkSum tc seed)
      else st
    (chunks, cur ++ [sentence], curTok + stoks)

/-- `LLMChunker._sentence_aware_split` (llm_chunker.py lines 210-252) after
sentence splitting: the regex sentence split and per-sentence stripping
(lines 219-220) are external string processing, so the function takes the
resulting sentence list and returns chunks as sentence lists (the code
emits `" ".join(chunk)`, which is nonempty exactly when the list is). -/
def sentenceAwareSplit (chunk_size : Nat) (tc : String → Nat)
    (sentences : List String) : List (List String) :=
  let st := sentences.foldl (sentenceStep chunk_size tc) ([], [], 0)
  if st.2.1 ≠ [] then st.1 ++ [st.2.1] else st.1

/-- `LLMChunker.chunk_document` (llm_chunker.py lines 46-86).  `tc` is
`count_tokens`; `split` is the configured splitting strategy applied on the
large-document branch (lines 66-74; one of the split functions above after
encoding, or the LLM-assisted path).  A document whose token count is at
most `chunk_size` is returned whole as a single chunk (lines 57-64);
otherwise the strategy's pieces are wrapped with positional metadata
(lines 76-86). -/
def chunkDocument (tc : String → Nat) (chunk_size : Nat)
    (split : String → List String) (text filename : String) : List Chunk :=
  if tc text ≤ chunk_size then
    [{ content := text, chunk_index := 0, filename := filename,
       total_chunks := 1 }]
  else
    let pieces := split text
    pieces.enum.map (fun p =>
      { content := p.2, chunk_index := p.1, filename := filename,
        total_chunks := pieces.length })

/-! ## Concrete store used by the closed-instance theorems -/

/-- A sample chunk. -/
def wChunk : Chunk :=
  { content := "hello", chunk_index := 0, filename := "a.txt",
    total_chunks := 1 }

/-- The metadata record `add_documents` builds for `wChunk`. -/
def wMeta : ChunkMeta :=
  { document_id := "doc-1", filename := "a.txt", content := "hello",
    chunk_index := 0, total_chunks := 1 }

/-- A store holding one 2-dimensional vector for `wChunk`. -/
def wStore : VectorStore :=
  runAdd emptyStore [wChunk] [[1, 0]] "doc-1" "a.txt"

/-! ## Helper lemmas -/

theorem similarity01_nonneg (d : ℚ) : 0 ≤ similarity01 d := by
  unfold similarity01 clampCos
  split_ifs <;> linarith

theorem similarity01_le_one (d : ℚ) : similarity01 d ≤ 1 := by
  unfold similarity01 clampCos
  split_ifs <;> linarith

theorem mem_processHits {metadata : List ChunkMeta} {raw : List (ℚ × Int)}
    {r : SearchResult} (hr : r ∈ processHits metadata raw) :
    ∃ hit ∈ raw, ∃ h : 0 ≤ hit.2 ∧ hit.2 < (metadata.length : Int),
      r = { meta := metadata.get ⟨hit.2.toNat, by omega⟩,
            similarity_score := similarity01 hit.1 } := by
  unfold processHits at hr
  rw [List.mem_filterMap] at hr
  obtain ⟨hit, hmem, heq⟩ := hr
  by_cases h : 0 ≤ hit.2 ∧ hit.2 < (metadata.length : Int)
  · refine ⟨hit, hmem, h, ?_⟩
    rw [dif_pos h] at heq
    exact (Option.some.injEq _ _ ▸ heq).symm
  · rw [dif_neg h] at heq
    cases heq

theorem mem_search_of_mem {s : VectorStore} {top_k : Nat}
    {raw : List (ℚ × Int)} {r : SearchResult}
    (hr : r ∈ (search s top_k raw).2) : r ∈ processHits s.metadata raw := by
  unfold search at hr
  split at hr
  · simp at hr
  · split at hr
    · simp at hr
    · exact hr

theorem processHits_filter_invalid (metadata : List ChunkMeta)
    (raw : List (ℚ × Int)) :
    processHits metadata raw = processHits metadata
      (raw.filter (fun hit =>
        decide (0 ≤ hit.2 ∧ hit.2 < (metadata.length : Int)))) := by
  induction raw with
  | nil => rfl
  | cons hit t ih =>
    by_cases hc : 0 ≤ hit.2 ∧ hit.2 < (metadata.length : Int)
    · have hf : (hit :: t).filter (fun hit =>
          decide (0 ≤ hit.2 ∧ hit.2 < (metadata.length : Int)))
          = hit :: t.filter (fun hit =>
              decide (0 ≤ hit.2 ∧ hit.2 < (metadata.length : Int))) := by
        simp [List.filter_cons, hc]
      rw [hf]
      unfold processHits at ih ⊢
      rw [List.filterMap_cons, List.filterMap_cons, ih]
    · have hf : (hit :: t).filter (fun hit =>
          decide (0 ≤ hit.2 ∧ hit.2 < (metadata.length : Int)))
          = t.filter (fun hit =>
              decide (0 ≤ hit.2 ∧ hit.2 < (metadata.length : Int))) := by
        simp [List.filter_cons, hc]
      rw [hf]
      unfold processHits at ih ⊢
      rw [List.filterMap_cons, dif_neg hc, ih]

/-! ## Claim theorems -/

/-- C2: for every query and every distance returned by the ANN structure,
the user-facing similarity score of a search result equals
`((clamp(1 - d/2, -1, 1)) + 1) / 2`, and therefore every similarity score
returned by `search` lies in `[0, 1]` inclusive, for any input vectors. -/
theorem search_scores_formula_and_range (s : VectorStore) (top_k : Nat)
    (raw : List (ℚ × Int)) (r : SearchResult)
    (hr : r ∈ (search s top_k raw).2) :
    (∃ hit ∈ raw,
      r.similarity_score = (clampCos (1 - hit.1 / 2) + 1) / 2) ∧
    0 ≤ r.similarity_score ∧ r.similarity_score ≤ 1 := by
  obtain ⟨hit, hmem, h, heq⟩ := mem_processHits (mem_search_of_mem hr)
  subst heq
  exact ⟨⟨hit, hmem, rfl⟩, similarity01_nonneg _, similarity01_le_one _⟩

/-- Closed instance of `search_scores_formula_and_range`. -/
theorem search_scores_formula_and_range_witness :
    (∃ hit ∈ [((0 : ℚ), (0 : Int))],
      (⟨wMeta, similarity01 0⟩ : SearchResult).similarity_score
        = (clampCos (1 - hit.1 / 2) + 1) / 2) ∧
    0 ≤ (⟨wMeta, similarity01 0⟩ : SearchResult).similarity_score ∧
    (⟨wMeta, similarity01 0⟩ : SearchResult).similarity_score ≤ 1 :=
  search_scores_formula_and_range wStore 5 [(0, 0)]
    ⟨wMeta, similarity01 0⟩
    (by rw [show (search wStore 5 [(0, 0)]).2 = [⟨wMeta, similarity01 0⟩]
              from rfl]
        exact List.mem_singleton_self _)

/-- C3: for every query vector and every `top_k`, `search` returns at most
`min(top_k, total_vectors)` results, and when the index is empty or not yet
created it returns the empty sequence rather than raising an error (the
model is a total function, so no failure is possible at all). -/
theorem search_result_count_bound (s : VectorStore) (top_k : Nat)
    (raw : List (ℚ × Int)) (hraw : raw.length = min top_k s.ntotal) :
    (search s top_k raw).2.length ≤ min top_k s.ntotal ∧
    ((s.index = none ∨ s.ntotal = 0) → (search s top_k raw).2 = []) := by
  constructor
  · unfold search
    cases hidx : s.index with
    | none => simp
    | some p =>
      obtain ⟨d, vecs⟩ := p
      by_cases h0 : vecs.length = 0
      · simp [h0]
      · simp only [h0, if_false]
        rw [← hraw]
        exact List.length_filterMap_le _ _
  · intro h
    unfold search
    cases hidx : s.index with
    | none => simp
    | some p =>
      obtain ⟨d, vecs⟩ := p
      have h0 : vecs.length = 0 := by
        rcases h with h | h
        · rw [hidx] at h; cases h
        · unfold VectorStore.ntotal at h
          rw [hidx] at h
          exact h
      simp [h0]

/-- Closed instance of `search_result_count_bound`. -/
theorem search_result_count_bound_witness :
    (search wStore 5 [(0, 0)]).2.length ≤ min 5 wStore.ntotal ∧
    ((wStore.index = none ∨ wStore.ntotal = 0) →
      (search wStore 5 [(0, 0)]).2 = []) :=
  search_result_count_bound wStore 5 [(0, 0)] (by decide)

/-- The efSearch update rule exactly as claim C8 words it: the larger of
the current value and `clamp(32..512, top_k * 32)`.  Stated only to be
compared against `updateEfSearch`, which is what the code computes. -/
def efSearchClaimC8 (current top_k : Nat) : Nat :=
  max current (max 32 (min 512 (top_k * 32)))

/-- C8 counterexample: the code's per-query target is
`max(64, min(512, top_k * 32))` — the lower clamp bound is 64, not 32.
With current `efSearch = 16` (the FAISS HNSW construction default) and
`top_k = 1`, the code sets 64 while the claimed formula gives 32. -/
theorem efSearch_clamp_floor_not_32 :
    updateEfSearch 16 1 = 64 ∧ efSearchClaimC8 16 1 = 32 ∧
    updateEfSearch 16 1 ≠ efSearchClaimC8 16 1 := by decide

/-- C8 amended: on every search call that reaches the index, `efSearch` is
set to the larger of its current value and `clamp(64..512, top_k * 32)`
(lower clamp bound 64, not 32), and it never decreases across queries on
the same instance. -/
theorem efSearch_update_formula (current top_k : Nat) :
    updateEfSearch current top_k
      = max current (max 64 (min 512 (top_k * 32))) ∧
    current ≤ updateEfSearch current top_k ∧
    ∀ (s : VectorStore) (raw : List (ℚ × Int)),
      s.efSearch ≤ (search s top_k raw).1.efSearch := by
  have key : ∀ c k : Nat, updateEfSearch c k
      = max c (max 64 (min 512 (k * 32))) ∧ c ≤ updateEfSearch c k := by
    intro c k
    simp only [updateEfSearch]
    constructor
    · split <;> omega
    · split <;> omega
  refine ⟨(key current top_k).1, (key current top_k).2, ?_⟩
  intro s raw
  unfold search
  cases s.index with
  | none => exact le_refl _
  | some p =>
    obtain ⟨d, vecs⟩ := p
    by_cases h0 : vecs.length = 0
    · simp [h0]
    · simp only [h0, if_false]
      exact (key s.efSearch top_k).2

/-- C10: every result returned by `search` is built from the
chunk-metadata entry at a position `0 ≤ idx < len(metadata)`; positions
reported by the ANN structure that are negative (`-1` padding) or beyond
the metadata sequence are silently skipped, so `search` never fabricates a
result without a backing chunk record. -/
theorem search_results_have_backing_metadata (s : VectorStore)
    (top_k : Nat) (raw : List (ℚ × Int)) :
    (∀ r ∈ (search s top_k raw).2,
      ∃ dist : ℚ, ∃ i : Nat, ∃ h : i < s.metadata.length,
        (dist, (i : Int)) ∈ raw ∧ r.meta = s.metadata.get ⟨i, h⟩ ∧
        r.similarity_score = similarity01 dist) ∧
    ∀ metadata : List ChunkMeta,
      processHits metadata raw = processHits metadata
        (raw.filter (fun hit =>
          decide (0 ≤ hit.2 ∧ hit.2 < (metadata.length : Int)))) := by
  constructor
  · intro r hr
    obtain ⟨hit, hmem, h, heq⟩ := mem_processHits (mem_search_of_mem hr)
    refine ⟨hit.1, hit.2.toNat, by omega, ?_, ?_, ?_⟩
    · have hcast : ((hit.2.toNat : Int)) = hit.2 := Int.toNat_of_nonneg h.1
      rw [hcast]
      exact hmem
    · rw [heq]
    · rw [heq]
  · intro metadata
    exact processHits_filter_invalid metadata raw

/-- Closed instance of `search_results_have_backing_metadata`: the valid
hit `(0, 0)` yields the backing record while `(1, -1)` and `(2, 7)` are
skipped. -/
theorem search_results_have_backing_metadata_witness :
    ∃ dist : ℚ, ∃ i : Nat, ∃ h : i < wStore.metadata.length,
      (dist, (i : Int)) ∈ [((0 : ℚ), (0 : Int)), (1, -1), (2, 7)] ∧
      (⟨wMeta, similarity01 0⟩ : SearchResult).meta
        = wStore.metadata.get ⟨i, h⟩ ∧
      (⟨wMeta, similarity01 0⟩ : SearchResult).similarity_score
        = similarity01 dist :=
  (search_results_have_backing_metadata wStore 5
    [(0, 0), (1, -1), (2, 7)]).1 ⟨wMeta, similarity01 0⟩
    (by rw [show (search wStore 5 [(0, 0), (1, -1), (2, 7)]).2
              = [⟨wMeta, similarity01 0⟩] from rfl]
        exact List.mem_singleton_self _)

theorem isEmpty_false_of_length_pos {l : List α} (h : 0 < l.length) :
    l.isEmpty = false := by
  cases l with
  | nil => simp at h
  | cons a t => rfl

theorem addDocuments_fresh_index {s₀ : VectorStore} {chunks : List Chunk}
    {first : List ℚ} {rest : List (List ℚ)} {id fn : String}
    {s : VectorStore} (h₀ : s₀.index = none)
    (hall : ∀ e ∈ (first :: rest : List (List ℚ)),
      e.length = first.length)
    (hok : addDocuments s₀ chunks (first :: rest) id fn = .ok s) :
    s.index = some (first.length, first :: rest) := by
  have hcond : ((first :: rest : List (List ℚ)).all
      (fun e => e.length = first.length)) = true := by
    rw [List.all_eq_true]
    intro e he
    exact decide_eq_true (hall e he)
  simp only [addDocuments] at hok
  rw [if_pos hcond, h₀] at hok
  simp only [Except.ok.injEq] at hok
  subst hok
  rfl

theorem addDocuments_dim_mismatch {s : VectorStore} {chunks : List Chunk}
    {first : List ℚ} {rest : List (List ℚ)} {id fn : String} {d : Nat}
    {vecs : List (List ℚ)} (hidx : s.index = some (d, vecs))
    (hall : ∀ e ∈ (first :: rest : List (List ℚ)),
      e.length = first.length)
    (hne : first.length ≠ d) :
    addDocuments s chunks (first :: rest) id fn
      = .error .dimensionMismatch := by
  have hcond : ((first :: rest : List (List ℚ)).all
      (fun e => e.length = first.length)) = true := by
    rw [List.all_eq_true]
    intro e he
    exact decide_eq_true (hall e he)
  simp only [addDocuments]
  rw [if_pos hcond, hidx]
  simp only [hne, if_false]

/-- C1: for a store whose dimensionality is already established (some
vectors were added with dimension 384), a subsequent `add` call with
vectors of a different dimension (512) fails with the dimension-mismatch
error (the `faiss.Index.add` dimension assertion) and leaves the store's
vector count unchanged from before that second call. -/
theorem add_mismatched_dimension_rejected
    (s₀ s : VectorStore) (chunks₁ chunks₂ : List Chunk)
    (first₁ first₂ : List ℚ) (rest₁ rest₂ : List (List ℚ))
    (id₁ fn₁ id₂ fn₂ : String)
    (h₀ : s₀.index = none)
    (hd₁ : ∀ e ∈ (first₁ :: rest₁ : List (List ℚ)), e.length = 384)
    (hok : addDocuments s₀ chunks₁ (first₁ :: rest₁) id₁ fn₁ = .ok s)
    (hd₂ : ∀ e ∈ (first₂ :: rest₂ : List (List ℚ)), e.length = 512) :
    addDocuments s chunks₂ (first₂ :: rest₂) id₂ fn₂
      = .error .dimensionMismatch ∧
    (runAdd s chunks₂ (first₂ :: rest₂) id₂ fn₂).ntotal = s.ntotal := by
  have h384 : first₁.length = 384 := hd₁ first₁ (List.mem_cons_self _ _)
  have hall₁ : ∀ e ∈ (first₁ :: rest₁ : List (List ℚ)),
      e.length = first₁.length :=
    fun e he => (hd₁ e he).trans h384.symm
  have hidx : s.index = some (first₁.length, first₁ :: rest₁) :=
    addDocuments_fresh_index h₀ hall₁ hok
  have h512 : first₂.length = 512 := hd₂ first₂ (List.mem_cons_self _ _)
  have hall₂ : ∀ e ∈ (first₂ :: rest₂ : List (List ℚ)),
      e.length = first₂.length :=
    fun e he => (hd₂ e he).trans h512.symm
  have herr : addDocuments s chunks₂ (first₂ :: rest₂) id₂ fn₂
      = .error .dimensionMismatch :=
    addDocuments_dim_mismatch hidx hall₂ (by omega)
  refine ⟨herr, ?_⟩
  unfold runAdd
  rw [herr]

/-- A store holding one 384-dimensional vector. -/
def wStore384 : VectorStore :=
  runAdd emptyStore [wChunk] [List.replicate 384 (0 : ℚ)] "doc-a" "a.txt"

set_option maxRecDepth 4000 in
/-- Closed instance of `add_mismatched_dimension_rejected`. -/
theorem add_mismatched_dimension_rejected_witness :
    addDocuments wStore384 [wChunk] [List.replicate 512 (0 : ℚ)]
      "doc-b" "b.txt" = .error .dimensionMismatch ∧
    (runAdd wStore384 [wChunk] [List.replicate 512 (0 : ℚ)]
      "doc-b" "b.txt").ntotal = wStore384.ntotal :=
  add_mismatched_dimension_rejected emptyStore wStore384 [wChunk] [wChunk]
    (List.replicate 384 0) (List.replicate 512 0) [] []
    "doc-a" "a.txt" "doc-b" "b.txt" rfl
    (by intro e he
        rw [List.mem_singleton] at he
        subst he
        exact List.length_replicate 384 0)
    rfl
    (by intro e he
        rw [List.mem_singleton] at he
        subst he
        exact List.length_replicate 512 0)

theorem naiveSplit_2500_len (tokens : List α) (h : tokens.length = 2500) :
    (naiveSplitWindows tokens 1000 200).length = 4 := by
  have hne : tokens.isEmpty = false :=
    isEmpty_false_of_length_pos (by omega)
  unfold naiveSplitWindows
  simp only [hne, Bool.false_eq_true, if_false]
  have hw : windowStarts tokens.length (max (1000 - 200) 1)
      = [0, 800, 1600, 2400] := by rw [h]; decide
  rw [hw]
  have hlen : ∀ s : Nat, s < 2500 →
      ((tokens.drop s).take 1000).isEmpty = false := by
    intro s hs
    apply isEmpty_false_of_length_pos
    rw [List.length_take, List.length_drop, h]
    omega
  have h0 : (tokens.take 1000).isEmpty = false := by
    apply isEmpty_false_of_length_pos
    rw [List.length_take, h]
    omega
  simp [List.filter, h0, hlen 800 (by omega),
    hlen 1600 (by omega), hlen 2400 (by omega)]

/-- C5 counterexample: on an input of exactly 2500 tokens with
`chunk_size = 1000` and `chunk_overlap = 200` (step 800), the fixed-window
split starts windows at offsets 0, 800, 1600 AND 2400 — the final window
holds the last 100 tokens — so the result has 4 chunks, not 3. -/
theorem fixed_window_2500_not_three_chunks :
    windowStarts 2500 800 = [0, 800, 1600, 2400] ∧
    (List.replicate 2500 (0 : Nat)).length = 2500 ∧
    (naiveSplitWindows (List.replicate 2500 (0 : Nat)) 1000 200).length
      ≠ 3 := by
  refine ⟨by decide, List.length_replicate 2500 0, ?_⟩
  rw [naiveSplit_2500_len (List.replicate 2500 (0 : Nat))
    (List.length_replicate 2500 0)]
  decide

/-- C5 amended: for an input tokenizing to exactly 2500 tokens with
`chunk_size = 1000` and `chunk_overlap = 200`, the fixed-window split
produces windows starting at token offsets 0, 800, 1600 and 2400, i.e.
exactly 4 chunks (this is the spec's own step rule applied to 2500
tokens; the scenario's claimed 3 chunks contradicts it). -/
theorem fixed_window_2500_offsets (tokens : List α)
    (h : tokens.length = 2500) :
    windowStarts tokens.length (max (1000 - 200) 1)
      = [0, 800, 1600, 2400] ∧
    (naiveSplitWindows tokens 1000 200).length = 4 :=
  ⟨by rw [h]; decide, naiveSplit_2500_len tokens h⟩

/-- Closed instance of `fixed_window_2500_offsets`. -/
theorem fixed_window_2500_offsets_witness :
    windowStarts (List.replicate 2500 (1 : Nat)).length
      (max (1000 - 200) 1) = [0, 800, 1600, 2400] ∧
    (naiveSplitWindows (List.replicate 2500 (1 : Nat)) 1000 200).length
      = 4 :=
  fixed_window_2500_offsets (List.replicate 2500 (1 : Nat))
    (List.length_replicate 2500 1)

/-- C7 counterexample: `chunk_document` applied to the empty string does
NOT return the empty sequence — the small-document early return fires
(`count_tokens "" = 0 ≤ chunk_size`) and yields a one-element sequence
whose single chunk has empty content.  The tokenizer is instantiated with
`String.length`, which like any real tokenizer maps `""` to 0. -/
theorem chunk_document_empty_singleton :
    chunkDocument (fun s => s.length) 1000 (fun _ => []) "" "doc.txt"
      = [{ content := "", chunk_index := 0, filename := "doc.txt",
           total_chunks := 1 }] ∧
    chunkDocument (fun s => s.length) 1000 (fun _ => []) "" "doc.txt"
      ≠ [] := by decide

/-- C7 amended: `chunk_document` applied to the empty string (and to any
whitespace-only input, whose token count is at most `chunk_size`) returns
a ONE-element sequence whose single chunk carries the input itself as
content — the small-document early return — not the empty sequence. -/
theorem chunk_document_small_input_whole (tc : String → Nat) (cs : Nat)
    (split : String → List String) (text filename : String)
    (h : tc text ≤ cs) :
    chunkDocument tc cs split text filename
      = [{ content := text, chunk_index := 0, filename := filename,
           total_chunks := 1 }] := by
  simp [chunkDocument, h]

/-- Closed instance of `chunk_document_small_input_whole` at the empty
string. -/
theorem chunk_document_small_input_whole_witness :
    chunkDocument (fun s => s.length) 1000 (fun _ => []) "" "w.txt"
      = [{ content := "", chunk_index := 0, filename := "w.txt",
           total_chunks := 1 }] :=
  chunk_document_small_input_whole (fun s => s.length) 1000 (fun _ => [])
    "" "w.txt" (by decide)

/-- C9: for every token sequence and every window and step size with
`1 ≤ step ≤ window`, the fixed-window offsets `0, step, 2*step, …` with
windows of length `window` cover every token position at least once: the
position lies in some window's half-open interval, and that window's token
slice holds exactly the token at that position. -/
theorem fixed_window_covers_all_positions (tokens : List α)
    (window step p : Nat) (h1 : 1 ≤ step) (h2 : step ≤ window)
    (hp : p < tokens.length) :
    ∃ start ∈ windowStarts tokens.length step,
      start ≤ p ∧ p < start + window ∧
      ((tokens.drop start).take window).get? (p - start)
        = tokens.get? p := by
  have hA := Nat.div_mul_le_self p step
  have h3 := Nat.div_add_mod p step
  have h4 : p % step < step := Nat.mod_lt _ (by omega)
  rw [Nat.mul_comm] at h3
  refine ⟨p / step * step, ?_, hA, ?_, ?_⟩
  · unfold windowStarts
    rw [List.mem_map]
    refine ⟨p / step, ?_, rfl⟩
    rw [List.mem_range, Nat.lt_iff_add_one_le,
      Nat.le_div_iff_mul_le (by omega : 0 < step), Nat.add_mul,
      Nat.one_mul]
    omega
  · omega
  · rw [List.get?_take (by omega : p - p / step * step < window),
      List.get?_drop]
    congr 1
    omega

/-- Closed instance of `fixed_window_covers_all_positions`. -/
theorem fixed_window_covers_all_positions_witness :
    ∃ start ∈ windowStarts (List.range 5 : List Nat).length 2,
      start ≤ 4 ∧ 4 < start + 3 ∧
      (((List.range 5 : List Nat).drop start).take 3).get? (4 - start)
        = (List.range 5 : List Nat).get? 4 :=
  fixed_window_covers_all_positions (List.range 5) 3 2 4 (by decide)
    (by decide) (by decide)

/-- The registry has an entry under the given document id. -/
def HasKey (info : List (String × DocRecord)) (id : String) : Prop :=
  ∃ p ∈ info, p.1 = id

theorem setEntry_not_mem (info : List (String × DocRecord)) (id : String)
    (rec : DocRecord) (h : ¬ HasKey info id) :
    setEntry info id rec = info ++ [(id, rec)] := by
  unfold setEntry
  rw [if_neg]
  intro hany
  rw [List.any_eq_true] at hany
  obtain ⟨p, hp, hdec⟩ := hany
  exact h ⟨p, hp, of_decide_eq_true hdec⟩

theorem sumChunkCounts_append (info : List (String × DocRecord))
    (x : String × DocRecord) :
    sumChunkCounts (info ++ [x])
      = sumChunkCounts info + x.2.chunk_count := by
  simp [sumChunkCounts]

theorem addDocuments_ok_meta_reg {s : VectorStore} {chunks : List Chunk}
    {embeddings : List (List ℚ)} {id fn : String} {s' : VectorStore}
    (h : addDocuments s chunks embeddings id fn = .ok s') :
    s'.metadata = s.metadata ++ chunks.map (chunkMetaOf id fn) ∧
    s'.document_info
      = setEntry s.document_info id ⟨fn, chunks.length⟩ := by
  cases embeddings with
  | nil => simp [addDocuments] at h
  | cons first rest =>
    simp only [addDocuments] at h
    split at h
    · split at h
      · simp only [Except.ok.injEq] at h
        subst h
        exact ⟨rfl, rfl⟩
      · split at h
        · simp only [Except.ok.injEq] at h
          subst h
          exact ⟨rfl, rfl⟩
        · simp at h
    · simp at h

theorem runAdd_sum_inv {s : VectorStore} (c : AddCall)
    (hsum : sumChunkCounts s.document_info = s.metadata.length)
    (hkey : ¬ HasKey s.document_info c.document_id) :
    sumChunkCounts
        (runAdd s c.chunks c.embeddings c.document_id
          c.filename).document_info
      = (runAdd s c.chunks c.embeddings c.document_id
          c.filename).metadata.length := by
  unfold runAdd
  cases hadd : addDocuments s c.chunks c.embeddings c.document_id
      c.filename with
  | error e => exact hsum
  | ok s' =>
    obtain ⟨hm, hr⟩ := addDocuments_ok_meta_reg hadd
    rw [hm, hr, setEntry_not_mem _ _ _ hkey, sumChunkCounts_append]
    simp [hsum]

theorem hasKey_runAdd {s : VectorStore} {c : AddCall} {x : String}
    (h : HasKey (runAdd s c.chunks c.embeddings c.document_id
      c.filename).document_info x) :
    HasKey s.document_info x ∨ x = c.document_id := by
  unfold runAdd at h
  cases hadd : addDocuments s c.chunks c.embeddings c.document_id
      c.filename with
  | error e =>
    rw [hadd] at h
    exact Or.inl h
  | ok s' =>
    rw [hadd] at h
    obtain ⟨hm, hr⟩ := addDocuments_ok_meta_reg hadd
    rw [show (match (Except.ok s' : Except AddError VectorStore) with
        | .ok s' => s'
        | .error _ => s) = s' from rfl] at h
    rw [hr] at h
    obtain ⟨q, hq, hqx⟩ := h
    unfold setEntry at hq
    split at hq
    · rw [List.mem_map] at hq
      obtain ⟨p, hp, hpq⟩ := hq
      by_cases hpid : p.1 = c.document_id
      · rw [if_pos hpid] at hpq
        right
        rw [← hpq] at hqx
        exact hqx.symm
      · rw [if_neg hpid] at hpq
        left
        refine ⟨p, hp, ?_⟩
        rw [hpq]
        exact hqx
    · rw [List.mem_append] at hq
      rcases hq with hq | hq
      · exact Or.inl ⟨q, hq, hqx⟩
      · rw [List.mem_singleton] at hq
        right
        rw [← hqx, hq]

theorem runAdds_cons (s : VectorStore) (c : AddCall) (cs : List AddCall) :
    runAdds s (c :: cs)
      = runAdds (runAdd s c.chunks c.embeddings c.document_id c.filename)
          cs := rfl

theorem runAdds_sum_inv : ∀ (calls : List AddCall) (s : VectorStore),
    sumChunkCounts s.document_info = s.metadata.length →
    (∀ c ∈ calls, ¬ HasKey s.document_info c.document_id) →
    (calls.map AddCall.document_id).Nodup →
    sumChunkCounts (runAdds s calls).document_info
      = (runAdds s calls).metadata.length := by
  intro calls
  induction calls with
  | nil =>
    intro s hsum _ _
    exact hsum
  | cons c cs ih =>
    intro s hsum hfresh hnd
    rw [List.map_cons, List.nodup_cons] at hnd
    rw [runAdds_cons]
    apply ih
    · exact runAdd_sum_inv c hsum (hfresh c (List.mem_cons_self _ _))
    · intro c' hc' hk
      rcases hasKey_runAdd hk with hk' | heq
      · exact hfresh c' (List.mem_cons_of_mem _ hc') hk'
      · exact hnd.1 (heq ▸ List.mem_map_of_mem AddCall.document_id hc')
    · exact hnd.2

/-- The `add_documents` call duplicated in the C4 counterexample. -/
def cexCallA : AddCall :=
  { chunks := [wChunk], embeddings := [[0]], document_id := "doc-a",
    filename := "a.txt" }

/-- A second `add_documents` call with a distinct document id. -/
def cexCallB : AddCall :=
  { chunks := [wChunk], embeddings := [[0]], document_id := "doc-b",
    filename := "b.txt" }

/-- C4 counterexample: two `add` calls with the SAME `document_id` (one
chunk each).  The registry entry's `chunk_count` is overwritten by the
second call, not accumulated: afterwards the metadata sequence has length
2 while the chunk counts in the registry sum to 1, so the claimed
invariant `sum(chunk_count) == len(metadata)` fails. -/
theorem registry_chunk_count_not_accumulated :
    sumChunkCounts
        (runAdds emptyStore [cexCallA, cexCallA]).document_info = 1 ∧
    (runAdds emptyStore [cexCallA, cexCallA]).metadata.length = 2 ∧
    sumChunkCounts
        (runAdds emptyStore [cexCallA, cexCallA]).document_info
      ≠ (runAdds emptyStore [cexCallA, cexCallA]).metadata.length := by
  decide

/-- C4 amended: every `add` call sets the registry entry of the given
`document_id` to that call's chunk count (overwriting, not accumulating),
so after every sequence of `add` calls with pairwise-distinct
`document_id`s the sum of `chunk_count` over all registry entries equals
the length of the chunk-metadata sequence; with repeated ids the earlier
counts are lost and the two sides diverge. -/
theorem registry_sum_matches_metadata_of_distinct_ids
    (calls : List AddCall)
    (h : (calls.map AddCall.document_id).Nodup) :
    sumChunkCounts (runAdds emptyStore calls).document_info
      = (runAdds emptyStore calls).metadata.length :=
  runAdds_sum_inv calls emptyStore rfl
    (fun c _ hk => by
      obtain ⟨p, hp, _⟩ := hk
      cases hp) h

/-- Closed instance of `registry_sum_matches_metadata_of_distinct_ids`. -/
theorem registry_sum_matches_metadata_witness :
    sumChunkCounts
        (runAdds emptyStore [cexCallA, cexCallB]).document_info
      = (runAdds emptyStore [cexCallA, cexCallB]).metadata.length :=
  registry_sum_matches_metadata_of_distinct_ids [cexCallA, cexCallB]
    (by decide)

/-- Budget/shape classification of a chunk relative to its predecessor. -/
def GoodSucc (cs : Nat) (tc : String → Nat) (P C : List String) : Prop :=
  chunkSum tc C ≤ cs ∨ (∃ s, C = [s]) ∨ ∃ s, C = seedOf P ++ [s]

/-- Budget/shape classification of the first chunk. -/
def GoodHead (cs : Nat) (tc : String → Nat) (C : List String) : Prop :=
  chunkSum tc C ≤ cs ∨ ∃ s, C = [s]

/-- Loop invariant of the sentence accumulation fold. -/
def SplitInv (cs : Nat) (tc : String → Nat)
    (st : List (List String) × List String × Nat) : Prop :=
  st.2.2 = chunkSum tc st.2.1 ∧
  List.Chain' (GoodSucc cs tc) st.1 ∧
  (∀ C ∈ st.1.head?, GoodHead cs tc C) ∧
  (st.2.1 = [] → st.1 = []) ∧
  (chunkSum tc st.2.1 ≤ cs ∨
    (st.1 = [] ∧ ∃ s, st.2.1 = [s]) ∨
    (∃ P, st.1.getLast? = some P ∧ ∃ s, st.2.1 = seedOf P ++ [s]))

theorem chunkSum_append_singleton (tc : String → Nat) (l : List String)
    (s : String) : chunkSum tc (l ++ [s]) = chunkSum tc l + tc s := by
  simp [chunkSum]

theorem emit_good {cs : Nat} {tc : String → Nat}
    {chunks : List (List String)} {cur : List String}
    (hch : List.Chain' (GoodSucc cs tc) chunks)
    (hhd : ∀ C ∈ chunks.head?, GoodHead cs tc C)
    (hcur : chunkSum tc cur ≤ cs ∨
      (chunks = [] ∧ ∃ s, cur = [s]) ∨
      (∃ P, chunks.getLast? = some P ∧ ∃ s, cur = seedOf P ++ [s])) :
    List.Chain' (GoodSucc cs tc) (chunks ++ [cur]) ∧
    ∀ C ∈ (chunks ++ [cur]).head?, GoodHead cs tc C := by
  constructor
  · rw [List.chain'_append]
    refine ⟨hch, List.chain'_singleton _, ?_⟩
    intro x hx y hy
    simp only [List.head?_cons, Option.mem_def, Option.some.injEq] at hy
    subst hy
    rcases hcur with h | ⟨hemp, s, hs⟩ | ⟨P, hP, s, hs⟩
    · exact Or.inl h
    · subst hemp
      simp at hx
    · rw [hP] at hx
      simp only [Option.mem_def, Option.some.injEq] at hx
      subst hx
      exact Or.inr (Or.inr ⟨s, hs⟩)
  · cases chunks with
    | nil =>
      intro C hC
      simp only [List.nil_append, List.head?_cons, Option.mem_def,
        Option.some.injEq] at hC
      subst hC
      rcases hcur with h | ⟨-, s, hs⟩ | ⟨P, hP, -⟩
      · exact Or.inl h
      · exact Or.inr ⟨s, hs⟩
      · simp at hP
    | cons c0 ct =>
      intro C hC
      simp only [List.cons_append, List.head?_cons, Option.mem_def,
        Option.some.injEq] at hC
      subst hC
      apply hhd
      simp

theorem sentenceStep_inv {cs : Nat} {tc : String → Nat}
    (chunks : List (List String)) (cur : List String) (curTok : Nat)
    (sentence : String)
    (hinv : SplitInv cs tc (chunks, cur, curTok)) :
    SplitInv cs tc (sentenceStep cs tc (chunks, cur, curTok) sentence) := by
  unfold SplitInv at hinv
  obtain ⟨hsum, hch, hhd, hemp, hcur⟩ := hinv
  simp only at hsum hch hhd hemp hcur
  unfold sentenceStep
  by_cases h0 : tc sentence = 0
  · rw [if_pos h0]
    exact ⟨hsum, hch, hhd, hemp, hcur⟩
  · rw [if_neg h0]
    by_cases hov : (chunks, cur, curTok).2.2 + tc sentence > cs ∧
        (chunks, cur, curTok).2.1 ≠ []
    · rw [if_pos hov]
      have hcur' := hcur
      unfold SplitInv
      refine ⟨?_, ?_, ?_, ?_, ?_⟩
      · simp only
        rw [chunkSum_append_singleton]
      · exact (emit_good hch hhd hcur').1
      · exact (emit_good hch hhd hcur').2
      · intro he
        simp only at he
        simp at he
      · right; right
        refine ⟨cur, ?_, sentence, rfl⟩
        simp only
        exact List.getLast?_concat _
    · rw [if_neg hov]
      have hcase : curTok + tc sentence ≤ cs ∨ cur = [] := by
        by_cases hle : curTok + tc sentence ≤ cs
        · exact Or.inl hle
        · right
          by_contra hne
          exact hov ⟨by simpa using Nat.lt_of_not_le hle, hne⟩
      unfold SplitInv
      refine ⟨?_, hch, hhd, ?_, ?_⟩
      · simp only
        rw [chunkSum_append_singleton, hsum]
      · intro he
        simp only at he
        simp at he
      · rcases hcase with hle | hnil
        · left
          simp only
          rw [chunkSum_append_singleton, ← hsum]
          exact hle
        · right; left
          refine ⟨hemp hnil, sentence, ?_⟩
          simp only
          rw [hnil]
          rfl

theorem foldl_inv (cs : Nat) (tc : String → Nat) :
    ∀ (sentences : List String)
      (st : List (List String) × List String × Nat),
      SplitInv cs tc st →
      SplitInv cs tc (sentences.foldl (sentenceStep cs tc) st) := by
  intro sentences
  induction sentences with
  | nil => intro st h; exact h
  | cons s ss ih =>
    intro st h
    exact ih _ (sentenceStep_inv st.1 st.2.1 st.2.2 s h)

/-- C6 amended: every chunk emitted by the sentence-aware split has token
count at most `chunk_size`, except (a) a chunk consisting of exactly one
sentence (whose own count may exceed `chunk_size`), or (b) a chunk formed
as the sentence-overlap seed (trailing `max(2, count / 4)` sentences) of
the previously emitted chunk followed by exactly one new sentence — the
code seeds the next accumulation and appends the overflow-triggering
sentence without re-checking the budget.  Stated as: consecutive chunks
satisfy `GoodSucc` and the first chunk satisfies `GoodHead`. -/
theorem sentence_split_chunk_shape (cs : Nat) (tc : String → Nat)
    (sentences : List String) :
    List.Chain' (GoodSucc cs tc) (sentenceAwareSplit cs tc sentences) ∧
    ∀ C ∈ (sentenceAwareSplit cs tc sentences).head?,
      GoodHead cs tc C := by
  have hinit : SplitInv cs tc ([], [], 0) := by
    refine ⟨rfl, List.chain'_nil, ?_, fun _ => rfl, Or.inl ?_⟩
    · intro C hC
      simp at hC
    · simp [chunkSum]
  have hinv := foldl_inv cs tc sentences ([], [], 0) hinit
  unfold SplitInv at hinv
  obtain ⟨hsum, hch, hhd, hemp, hcur⟩ := hinv
  unfold sentenceAwareSplit
  by_cases hc : (sentences.foldl (sentenceStep cs tc) ([], [], 0)).2.1 = []
  · rw [if_neg (fun h => h hc)]
    exact ⟨hch, hhd⟩
  · rw [if_pos hc]
    exact emit_good hch hhd hcur

/-- C6 counterexample: with `chunk_size = 10` and four 5-token sentences,
the sentence-aware split emits a chunk of THREE sentences totalling 15
tokens: after the first overflow the minimum-2-sentence overlap seed
already fills the budget, and the overflow-triggering sentence is appended
without re-checking it, so a multi-sentence chunk exceeding `chunk_size`
is emitted — contradicting the claim that only single-sentence chunks may
exceed it. -/
theorem sentence_split_budget_violation :
    ∃ chunk ∈ sentenceAwareSplit 10 String.length
        ["aaaaa", "bbbbb", "ccccc", "ddddd"],
      10 < chunkSum String.length chunk ∧ chunk.length ≠ 1 := by decide

/-- Closed instance of `sentence_split_chunk_shape` at the
counterexample input (whose first emitted chunk meets the budget). -/
theorem sentence_split_chunk_shape_witness :
    List.Chain' (GoodSucc 10 String.length)
      (sentenceAwareSplit 10 String.length
        ["aaaaa", "bbbbb", "ccccc", "ddddd"]) ∧
    GoodHead 10 String.length ["aaaaa", "bbbbb"] :=
  ⟨(sentence_split_chunk_shape 10 String.length
      ["aaaaa", "bbbbb", "ccccc", "ddddd"]).1,
   (sentence_split_chunk_shape 10 String.length
      ["aaaaa", "bbbbb", "ccccc", "ddddd"]).2 ["aaaaa", "bbbbb"] rfl⟩

end RagChatbot
